import Mathlib

/-!
Shallow embedding of the core command-dispatch machinery of rpc-vispy
(src/rpcvispy/core.py): time-stamped envelopes, the bounded handoff queue
with backpressure and staleness policy, the per-tick drain-and-dispatch
loop of the worker, the deferred scheduler, and the producer-side canvas
handle and registry.  Wall-clock instants are modelled as integers (only their ordered additive
group structure is used by the code under verification);
the field max_queue_time lives in a type with an explicit infinity so
that the Python value float("inf") is representable.
-/

namespace RpcVispy

/-- Possibly infinite time span: models a Python float used as a timeout or
staleness bound, where infinity (as in close()) is QTime.inf. -/
inductive QTime where
  | fin : ℤ → QTime
  | inf : QTime
deriving DecidableEq

/-- Comparison of a finite value against a possibly infinite bound, and of two
bounds: every value is at most inf, matching IEEE comparisons with inf. -/
def QTime.le : QTime → QTime → Bool
  | _, .inf => true
  | .inf, .fin _ => false
  | .fin a, .fin b => decide (a ≤ b)

/-- Python dataclass TimeInfo: presentation-time properties of an envelope. -/
structure TimeInfo where
  created : ℤ
  pts : ℤ
  max_queue_time : QTime
deriving DecidableEq

/-- Semantics of TimeInfo construction and its post-init hook: created
defaults to the current clock, pts defaults to created, and a supplied dt
is added to pts. -/
def TimeInfo.make (now : ℤ) (created? pts? : Option ℤ)
    (mqt : QTime) (dt? : Option ℤ) : TimeInfo :=
  let c := created?.getD now
  let p := pts?.getD c
  ⟨c, match dt? with | some d => p + d | none => p, mqt⟩

/-- Helper dt(delta, **kwargs): time-info for now plus delta. -/
def dt (now delta : ℤ) (mqt : QTime) : TimeInfo :=
  TimeInfo.make now none none mqt (some delta)

/-- Command payloads are opaque executables serialized across the process
boundary; drawing commands are tracked by an identifier, and the terminate
command scheduled by close() is distinguished. -/
inductive Payload where
  | op : Nat → Payload
  | quit : Payload
deriving DecidableEq

/-- Envelope placed on the handoff queue by schedule_fn: the pair of a
TimeInfo and the serialized payload. -/
abbrev Env := TimeInfo × Payload

/-- Staleness test of pop_queue: the popped envelope is kept when
(now - t.created) <= t.max_queue_time. -/
def isFresh (now : ℤ) (t : TimeInfo) : Bool :=
  QTime.le (.fin (now - t.created)) t.max_queue_time

/-- Result of one call of the worker helper pop_queue: the returned pair (if
any), the queue contents that remain, the stale envelopes popped and not
returned, and the count handed to logger.info when the budget ran out. -/
structure PopResult where
  result : Option Env
  rest : List Env
  dropped : List Env
  logged : Option Nat
deriving DecidableEq

/-- Loop of pop_queue: while n > 0, pop; a fresh envelope sets n to -1 and is
returned; a stale one decrements n.  The fuel argument is the running budget
n, strictly positive on entry.  An empty queue raises Empty, which the source
catches and turns into None, skipping the log statement.  When the budget is
exhausted (n reaches 0) the loop also falls through to the return statement,
returning the last popped (stale) envelope and logging 100 - n = 100. -/
def popGo (now : ℤ) : Nat → List Env → PopResult
  | _, [] => ⟨none, [], [], none⟩
  | fuel + 1, e :: q =>
    if isFresh now e.1 then ⟨some e, q, [], none⟩
    else if fuel = 0 then ⟨some e, q, [], some 100⟩
    else
      let r := popGo now fuel q
      ⟨r.result, r.rest, e :: r.dropped, r.logged⟩
  | 0, _ :: _ => ⟨none, [], [], none⟩

/-- Worker helper pop_queue(now): pop with a drain budget of 100, skipping
stale envelopes. -/
def pop_queue (now : ℤ) (q : List Env) : PopResult :=
  popGo now 100 q

/-- Pending event of the worker's sched.scheduler: absolute time, sequence
number, payload.  All events are entered with priority 1, so the heap breaks
time ties by the monotonically increasing sequence number. -/
structure Evt where
  time : ℤ
  seq : Nat
  payload : Payload
deriving DecidableEq

/-- Heap order of the scheduler's events: by time, ties by sequence. -/
def evtLE (a b : Evt) : Prop :=
  a.time < b.time ∨ (a.time = b.time ∧ a.seq ≤ b.seq)

instance : DecidableRel evtLE := fun a b => by
  unfold evtLE; infer_instance

instance : IsTotal Evt evtLE := by
  constructor
  intro a b
  rcases lt_trichotomy a.time b.time with h | h | h
  · exact Or.inl (Or.inl h)
  · rcases Nat.le_total a.seq b.seq with hs | hs
    · exact Or.inl (Or.inr ⟨h, hs⟩)
    · exact Or.inr (Or.inr ⟨h.symm, hs⟩)
  · exact Or.inr (Or.inl h)

instance : IsTrans Evt evtLE := by
  constructor
  intro a b c hab hbc
  rcases hab with h1 | h1
  · rcases hbc with h2 | h2
    · exact Or.inl (h1.trans h2)
    · exact Or.inl (lt_of_lt_of_eq h1 h2.1)
  · rcases hbc with h2 | h2
    · exact Or.inl (lt_of_eq_of_lt h1.1 h2)
    · exact Or.inr ⟨h1.1.trans h2.1, h1.2.trans h2.2⟩

/-- Scheduler pending set in heap (pop) order. -/
abbrev SchedSorted (evs : List Evt) : Prop :=
  List.Sorted evtLE evs

/-- Call scheduler.enterabs(time, 1, action): insert a new event with the
given sequence number, keeping heap order. -/
def enterabs (t : ℤ) (seq : Nat) (pl : Payload) (evs : List Evt) : List Evt :=
  List.orderedInsert evtLE ⟨t, seq, pl⟩ evs

/-- Call scheduler.run(blocking=False): repeatedly pop and execute the
minimal pending event while its time is due; return the executed events in
execution order together with the events still pending. -/
def runDue (now : ℤ) : List Evt → List Evt × List Evt
  | [] => ([], [])
  | e :: rest =>
    if e.time ≤ now then
      (e :: (runDue now rest).1, (runDue now rest).2)
    else ([], e :: rest)

/-- Worker state across ticks: the handoff queue contents, the scheduler's
pending events in heap order, and the scheduler's next sequence number. -/
structure WState where
  queue : List Env
  sched : List Evt
  nextSeq : Nat
deriving DecidableEq

/-- Observable outcome of one tick of the timer callback update(ev). -/
structure TickOut where
  immediate : Option Payload
  ranEvents : List Evt
  deferred : Option Evt
  dropped : List Env
  logged : Option Nat
  state : WState
deriving DecidableEq

/-- Timer callback update(ev) at clock value now: drain the queue through
pop_queue, execute the returned envelope when its pts is due or defer it via
enterabs otherwise, then run the scheduler non-blockingly. -/
def update (now : ℤ) (s : WState) : TickOut :=
  let pr := pop_queue now s.queue
  match pr.result with
  | some (t, c) =>
    if t.pts ≤ now then
      let rd := runDue now s.sched
      ⟨some c, rd.1, none, pr.dropped, pr.logged, ⟨pr.rest, rd.2, s.nextSeq⟩⟩
    else
      let rd := runDue now (enterabs t.pts s.nextSeq c s.sched)
      ⟨none, rd.1, some ⟨t.pts, s.nextSeq, c⟩, pr.dropped, pr.logged,
        ⟨pr.rest, rd.2, s.nextSeq + 1⟩⟩
  | none =>
    let rd := runDue now s.sched
    ⟨none, rd.1, none, pr.dropped, pr.logged, ⟨pr.rest, rd.2, s.nextSeq⟩⟩

/-- Outcome of Queue.put(item, timeout) on a bounded queue, abstracting the
real-time wait: the item is accepted (immediately, or once the consumer frees
a slot within the deadline), or the wait times out and Full is raised, or —
with an infinite deadline and room never appearing — the call stays blocked.
The parameter roomAfter is the delay until the consumer frees a slot
(QTime.inf meaning never); when accepted after a wait the abstraction appends
to the current contents. -/
inductive PutOutcome where
  | accepted : List Env → PutOutcome
  | timedOutFull : PutOutcome
  | blocksForever : PutOutcome
deriving DecidableEq

/-- Bounded blocking put with timeout, as used by schedule_fn. -/
def put (cap : Nat) (q : List Env) (e : Env)
    (timeout roomAfter : QTime) : PutOutcome :=
  if q.length < cap then .accepted (q ++ [e])
  else if QTime.le roomAfter timeout then
    if roomAfter = QTime.inf then .blocksForever else .accepted (q ++ [e])
  else .timedOutFull

/-- Producer-visible outcome of schedule_fn: the envelope was enqueued, or it
was dropped with a logged warning (the Full exception is caught, so nothing
reaches the caller), or the call is still blocked inside put. -/
inductive ScheduleOutcome where
  | enqueued : List Env → ScheduleOutcome
  | droppedWarned : List Env → ScheduleOutcome
  | blocked : ScheduleOutcome
deriving DecidableEq

/-- Producer entry point schedule_fn(queue, fn, ti): default the TimeInfo,
then call queue.put((ti, dumps(fn)), timeout=ti.max_queue_time), catching
Full with a warning. -/
def schedule_fn (cap : Nat) (q : List Env) (fn : Payload)
    (ti? : Option TimeInfo) (now : ℤ) (roomAfter : QTime) : ScheduleOutcome :=
  let ti := ti?.getD (TimeInfo.make now none none (QTime.fin 1) none)
  match put cap q (ti, fn) ti.max_queue_time roomAfter with
  | .accepted q2 => .enqueued q2
  | .timedOutFull => .droppedWarned q
  | .blocksForever => .blocked

/-- Method RPCCanvas.schedule(closure, ti) forwards to schedule_fn on the
handle's queue. -/
def RPCCanvas.schedule (cap : Nat) (q : List Env) (fn : Payload)
    (ti? : Option TimeInfo) (now : ℤ) (roomAfter : QTime) : ScheduleOutcome :=
  schedule_fn cap q fn ti? now roomAfter

/-- Terminate envelope built by RPCCanvas.close(): a default TimeInfo except
for max_queue_time = float("inf"), paired with the _close payload. -/
def RPCCanvas.closeEnv (now : ℤ) : Env :=
  (TimeInfo.make now none none QTime.inf none, Payload.quit)

/-- Method RPCCanvas.close(): schedule the terminate envelope. -/
def RPCCanvas.close (cap : Nat) (q : List Env) (now : ℤ)
    (roomAfter : QTime) : ScheduleOutcome :=
  RPCCanvas.schedule cap q (RPCCanvas.closeEnv now).2
    (some (RPCCanvas.closeEnv now).1) now roomAfter

/-- Modelled from the spec: executing the terminate payload calls the
backend's app.quit(), which stops the worker's timer and exits the worker's
run loop (the windowing backend itself is an external collaborator); drawing
payloads leave the loop running.  The argument is whether the run loop is
live before the payload executes, the value whether it is live afterwards. -/
def execPayload : Payload → Bool → Bool
  | .quit, _ => false
  | .op _, r => r

/-- Python error raised by the done property. -/
inductive PyError where
  | typeError : PyError
deriving DecidableEq

/-- Modelled from Python semantics: multiprocessing.Queue defines no dunder
method for len, so len(queue) raises TypeError for every queue value. -/
def mpQueueLen (q : List Env) : Except PyError Nat :=
  .error .typeError

/-- Property RPCCanvas.done, whose body is len(self.queue) == 0 on the
multiprocessing queue. -/
def done (q : List Env) : Except PyError Bool :=
  (mpQueueLen q).map (fun n => n == 0)

/-- Worker-local Context storage (backed by the instance dictionary):
an association list from string keys to handles, which we track by
identifier. -/
abbrev Ctx := List (String × Nat)

/-- Dictionary lookup, as used by the membership test and item access of
Context: first match wins. -/
def ctxGet : Ctx → String → Option Nat
  | [], _ => none
  | (k2, v) :: rest, k => if k2 = k then some v else ctxGet rest k

/-- Item assignment of Context via dict.update: replace the value in place
when the key exists, otherwise append the new binding. -/
def setItem (c : Ctx) (k : String) (v : Nat) : Ctx :=
  if (ctxGet c k).isSome then
    c.map (fun p => if p.1 = k then (k, v) else p)
  else c ++ [(k, v)]

namespace Context

/-- Method Context.ensure_get(key, create_fn); the Bool records whether
create_fn was invoked (it is called at most once per call, and the single
created value is both stored and returned). -/
def ensure_get (c : Ctx) (key : Option String) (create_fn : Unit → Nat) :
    Nat × Ctx × Bool :=
  match key with
  | none => (create_fn (), c, true)
  | some k =>
    match ctxGet c k with
    | none =>
      let v := create_fn ()
      (v, setItem c k v, true)
    | some v => (v, c, false)

end Context

namespace switch_canvas

/-- Entry of the context manager switch_canvas(vis): default vis to a freshly
constructed canvas, save the prior value of the global slot, install vis, and
yield it.  The result is the new slot value, the yielded handle, and the
saved prior slot value. -/
def enter (theVis : Option Nat) (vis? : Option Nat) (fresh : Nat) :
    Option Nat × Nat × Option Nat :=
  let vis := vis?.getD fresh
  (some vis, vis, theVis)

/-- Block that runs in finally: restore the saved slot value.  It runs on
every exit path; the flag records whether the scope is exiting with an
exception and does not influence the restored value. -/
def exit (exc : Bool) (saved : Option Nat) : Option Nat :=
  saved

end switch_canvas

/-- Function current_canvas(): lazily create the default handle when the slot
is empty.  The result is the new slot value and the returned handle. -/
def current_canvas (theVis : Option Nat) (fresh : Nat) : Option Nat × Nat :=
  match theVis with
  | some v => (some v, v)
  | none => (some fresh, fresh)

/-- Scene-graph node: an optional name and a list of children. -/
inductive SNode where
  | node : Option String → List SNode → SNode

/-- Name accessor of a scene-graph node. -/
def SNode.name : SNode → Option String
  | .node n _ => n

/-- Children accessor of a scene-graph node. -/
def SNode.children : SNode → List SNode
  | .node _ cs => cs

/-- Breadth-first while loop of find_node, given fuel; in find_node the work
list starts empty, so the body below is unreachable and any positive fuel
yields the same result.  (Were the body ever entered, the source would push
pairs produced by enumerate(n.children) and then fault reading their name
attribute; the model pushes the children themselves.) -/
def findLoop (nm : String) : Nat → List SNode → Option SNode
  | _, [] => none
  | 0, _ :: _ => none
  | fuel + 1, n :: rest =>
    if n.name = some nm then some n
    else findLoop nm fuel (rest ++ n.children)

/-- Function find_node(root, name): a None name returns the root; otherwise
the work list is initialised to an empty deque — the root is never pushed —
so the loop exits at once and None is returned. -/
def find_node (root : SNode) (name : Option String) : Option SNode :=
  match name with
  | none => some root
  | some nm => findLoop nm 100 []

/-- Concrete queue for the budget-exhaustion scenarios: one hundred
envelopes created at time 0 with the default staleness bound 1, payloads
numbered in arrival order, popped at time 200. -/
def q100 : List Env :=
  (List.range 100).map (fun i => (⟨0, 0, QTime.fin 1⟩, Payload.op i))

theorem popGo_decomp (now : ℤ) (fuel : Nat) :
    ∀ q : List Env, 1 ≤ fuel →
      q = (popGo now fuel q).dropped ++ (popGo now fuel q).result.toList
            ++ (popGo now fuel q).rest := by
  induction fuel with
  | zero => intro q h; omega
  | succ m ih =>
    intro q _
    match q with
    | [] => simp [popGo]
    | e :: q2 =>
      cases hf : isFresh now e.1 with
      | true => simp [popGo, hf]
      | false =>
        by_cases hm : m = 0
        · subst hm; simp [popGo, hf]
        · have h1 : 1 ≤ m := Nat.one_le_iff_ne_zero.mpr hm
          simpa [popGo, hf, hm] using ih q2 h1

theorem popGo_count (now : ℤ) (fuel : Nat) :
    ∀ q : List Env,
      (popGo now fuel q).dropped.length
        + (popGo now fuel q).result.toList.length ≤ fuel := by
  induction fuel with
  | zero =>
    intro q
    match q with
    | [] => simp [popGo]
    | e :: q2 => simp [popGo]
  | succ m ih =>
    intro q
    match q with
    | [] => simp [popGo]
    | e :: q2 =>
      cases hf : isFresh now e.1 with
      | true => simp [popGo, hf]
      | false =>
        by_cases hm : m = 0
        · subst hm; simp [popGo, hf]
        · have hrec := ih q2
          simp only [popGo, hf, Bool.false_eq_true, if_false, if_neg hm,
            List.length_cons]
          omega

theorem popGo_dropped_stale (now : ℤ) (fuel : Nat) :
    ∀ q : List Env, ∀ e ∈ (popGo now fuel q).dropped,
      isFresh now e.1 = false := by
  induction fuel with
  | zero =>
    intro q
    match q with
    | [] => simp [popGo]
    | e :: q2 => simp [popGo]
  | succ m ih =>
    intro q
    match q with
    | [] => simp [popGo]
    | e :: q2 =>
      cases hf : isFresh now e.1 with
      | true => simp [popGo, hf]
      | false =>
        by_cases hm : m = 0
        · subst hm; simp [popGo, hf]
        · intro x hx
          simp only [popGo, hf, Bool.false_eq_true, if_false, if_neg hm] at hx
          rcases List.mem_cons.mp hx with rfl | hx2
          · exact hf
          · exact ih q2 x hx2

theorem popGo_result_fresh_or_exhausted (now : ℤ) (fuel : Nat) :
    ∀ (q : List Env) (e2 : Env), (popGo now fuel q).result = some e2 →
      isFresh now e2.1 = true ∨ (popGo now fuel q).dropped.length + 1 = fuel := by
  induction fuel with
  | zero =>
    intro q e2 h
    match q with
    | [] => simp [popGo] at h
    | e :: q2 => simp [popGo] at h
  | succ m ih =>
    intro q e2 h
    match q with
    | [] => simp [popGo] at h
    | e :: q2 =>
      cases hf : isFresh now e.1 with
      | true =>
        simp only [popGo, hf, if_true] at h
        left
        rw [← Option.some_inj.mp h]
        exact hf
      | false =>
        by_cases hm : m = 0
        · subst hm
          simp [popGo, hf]
        · simp only [popGo, hf, Bool.false_eq_true, if_false, if_neg hm] at h ⊢
          rcases ih q2 e2 h with h2 | h2
          · exact Or.inl h2
          · right
            simp only [List.length_cons]
            omega

theorem popGo_none_rest (now : ℤ) (fuel : Nat) :
    ∀ q : List Env, (popGo now fuel q).result = none →
      (popGo now fuel q).rest = [] := by
  induction fuel with
  | zero =>
    intro q h
    match q with
    | [] => simp [popGo]
    | e :: q2 => simp [popGo]
  | succ m ih =>
    intro q h
    match q with
    | [] => simp [popGo]
    | e :: q2 =>
      cases hf : isFresh now e.1 with
      | true => simp [popGo, hf] at h
      | false =>
        by_cases hm : m = 0
        · subst hm; simp [popGo, hf] at h
        · simp only [popGo, hf, Bool.false_eq_true, if_false, if_neg hm] at h ⊢
          exact ih q2 h

theorem popGo_logged (now : ℤ) (fuel : Nat) :
    ∀ q : List Env,
      ((popGo now fuel q).logged = some 100 ∨ (popGo now fuel q).logged = none)
    ∧ ((popGo now fuel q).logged ≠ none ↔
        ((popGo now fuel q).dropped.length + 1 = fuel
          ∧ ∃ e2, (popGo now fuel q).result = some e2
              ∧ isFresh now e2.1 = false)) := by
  induction fuel with
  | zero =>
    intro q
    match q with
    | [] => simp [popGo]
    | e :: q2 => simp [popGo]
  | succ m ih =>
    intro q
    match q with
    | [] => simp [popGo]
    | e :: q2 =>
      cases hf : isFresh now e.1 with
      | true => simp [popGo, hf]
      | false =>
        by_cases hm : m = 0
        · subst hm
          simp [popGo, hf]
        · have hrec := ih q2
          simp only [popGo, hf, Bool.false_eq_true, if_false, if_neg hm,
            List.length_cons]
          refine ⟨hrec.1, ?_⟩
          rw [hrec.2]
          constructor
          · rintro ⟨hlen, he⟩
            exact ⟨by omega, he⟩
          · rintro ⟨hlen, he⟩
            exact ⟨by omega, he⟩

theorem evtLE_time_le {a b : Evt} (h : evtLE a b) : a.time ≤ b.time := by
  rcases h with h | h
  · exact le_of_lt h
  · exact le_of_eq h.1

theorem runDue_append (now : ℤ) (l : List Evt) :
    (runDue now l).1 ++ (runDue now l).2 = l := by
  induction l with
  | nil => simp [runDue]
  | cons e rest ih =>
    by_cases h : e.time ≤ now
    · simp [runDue, h, ih]
    · simp [runDue, h]

theorem runDue_fst_time_le (now : ℤ) (l : List Evt) :
    ∀ e ∈ (runDue now l).1, e.time ≤ now := by
  induction l with
  | nil => simp [runDue]
  | cons e rest ih =>
    by_cases h : e.time ≤ now
    · intro x hx
      simp only [runDue, if_pos h] at hx
      rcases List.mem_cons.mp hx with rfl | hx2
      · exact h
      · exact ih x hx2
    · intro x hx
      simp [runDue, h] at hx

theorem runDue_eq_filter_of_sorted (now : ℤ) (l : List Evt)
    (hl : List.Pairwise evtLE l) :
    (runDue now l).1 = l.filter (fun e => decide (e.time ≤ now))
  ∧ (runDue now l).2 = l.filter (fun e => decide (now < e.time)) := by
  induction hl with
  | nil => simp [runDue]
  | @cons e rest h1 h2 ih =>
    rcases ih with ⟨ih1, ih2⟩
    by_cases hle : e.time ≤ now
    · have hnl : ¬ now < e.time := not_lt.mpr hle
      constructor
      · simp [runDue, hle, ih1]
      · simp [runDue, hle, hnl, ih2]
    · have hgt : now < e.time := not_le.mp hle
      have hrest : ∀ x ∈ rest, now < x.time := fun x hx =>
        lt_of_lt_of_le hgt (evtLE_time_le (h1 x hx))
      constructor
      · have hr : (runDue now (e :: rest)).1 = [] := by simp [runDue, hle]
        rw [hr, eq_comm, List.filter_eq_nil_iff]
        intro x hx
        rcases List.mem_cons.mp hx with rfl | hx2
        · simpa using hle
        · simpa using not_le.mpr (hrest x hx2)
      · have hr : (runDue now (e :: rest)).2 = e :: rest := by
          simp [runDue, hle]
        rw [hr, eq_comm, List.filter_eq_self]
        intro x hx
        rcases List.mem_cons.mp hx with rfl | hx2
        · simpa using hgt
        · simpa using hrest x hx2

/-- Claim C3: the non-blocking deferred-run step executes and removes exactly
the pending entries whose pts is at most now, in ascending pts order with
ties broken by insertion order (the sequence number), never executes an
entry before its pts, leaves every later entry pending, and insertion via
enterabs keeps the pending set in that order. -/
theorem C3_deferred_scheduler_run (now t2 : ℤ) (sq : Nat) (p : Payload)
    (evs : List Evt) (h : SchedSorted evs) :
    (runDue now evs).1 = evs.filter (fun e => decide (e.time ≤ now))
  ∧ (runDue now evs).2 = evs.filter (fun e => decide (now < e.time))
  ∧ SchedSorted (runDue now evs).1
  ∧ (∀ e ∈ (runDue now evs).1, e.time ≤ now)
  ∧ SchedSorted (enterabs t2 sq p evs) := by
  rcases runDue_eq_filter_of_sorted now evs h with ⟨h1, h2⟩
  refine ⟨h1, h2, ?_, runDue_fst_time_le now evs, ?_⟩
  · rw [h1]
    exact h.filter _
  · exact List.Sorted.orderedInsert _ _ h

/-- Witness for C3: a two-event scheduler at a tick where only the first is
due. -/
theorem C3_deferred_scheduler_run_witness :
    (update 1 ⟨[], [⟨0, 0, Payload.op 1⟩, ⟨2, 1, Payload.op 2⟩], 2⟩).ranEvents
      = [⟨0, 0, Payload.op 1⟩] :=
  by
    have h3 := C3_deferred_scheduler_run 1 5 7 (Payload.op 3)
      [⟨0, 0, Payload.op 1⟩, ⟨2, 1, Payload.op 2⟩] (by decide)
    have h4 := h3.1
    simpa [update, pop_queue, popGo] using h4

/-- Claim C2: the envelope returned by the drain is executed immediately
exactly when its pts is at most now; otherwise it is inserted into the
deferred scheduler keyed by its absolute pts and is not executed during that
tick. -/
theorem C2_dispatch_or_defer (now : ℤ) (s : WState) (t : TimeInfo)
    (c : Payload)
    (hpop : (pop_queue now s.queue).result = some (t, c)) :
    (t.pts ≤ now →
        (update now s).immediate = some c ∧ (update now s).deferred = none)
  ∧ (now < t.pts →
        (update now s).immediate = none
      ∧ (update now s).deferred = some ⟨t.pts, s.nextSeq, c⟩
      ∧ (⟨t.pts, s.nextSeq, c⟩ : Evt) ∉ (update now s).ranEvents
      ∧ (⟨t.pts, s.nextSeq, c⟩ : Evt) ∈ (update now s).state.sched) := by
  by_cases hpts : t.pts ≤ now
  · constructor
    · intro _
      constructor
      · simp [update, hpop, hpts]
      · simp [update, hpop, hpts]
    · intro hgt
      exact absurd hgt (not_lt.mpr hpts)
  · constructor
    · intro hle
      exact absurd hle hpts
    · intro hgt
      have hm : (⟨t.pts, s.nextSeq, c⟩ : Evt)
          ∈ enterabs t.pts s.nextSeq c s.sched := by
        unfold enterabs
        exact (List.perm_orderedInsert _ _ _).mem_iff.mpr
          (List.mem_cons_self _ _)
      have hnot : (⟨t.pts, s.nextSeq, c⟩ : Evt)
          ∉ (runDue now (enterabs t.pts s.nextSeq c s.sched)).1 := by
        intro hmem
        exact absurd (runDue_fst_time_le now _ _ hmem) hpts
      have hsnd : (⟨t.pts, s.nextSeq, c⟩ : Evt)
          ∈ (runDue now (enterabs t.pts s.nextSeq c s.sched)).2 := by
        have hsplit : (⟨t.pts, s.nextSeq, c⟩ : Evt)
            ∈ (runDue now (enterabs t.pts s.nextSeq c s.sched)).1
              ++ (runDue now (enterabs t.pts s.nextSeq c s.sched)).2 := by
          rw [runDue_append]
          exact hm
        rcases List.mem_append.mp hsplit with h2 | h2
        · exact absurd h2 hnot
        · exact h2
      refine ⟨?_, ?_, ?_, ?_⟩
      · simp [update, hpop, hpts]
      · simp [update, hpop, hpts]
      · simpa [update, hpop, hpts] using hnot
      · simpa [update, hpop, hpts] using hsnd

/-- Witness for C2: a fresh envelope with pts 5 popped at time 0 is deferred
under sequence number 0. -/
theorem C2_dispatch_or_defer_witness :
    (update 0 ⟨[(⟨0, 5, QTime.fin 1⟩, Payload.op 7)], [], 0⟩).deferred
      = some ⟨5, 0, Payload.op 7⟩ :=
  ((C2_dispatch_or_defer 0 ⟨[(⟨0, 5, QTime.fin 1⟩, Payload.op 7)], [], 0⟩
      ⟨0, 5, QTime.fin 1⟩ (Payload.op 7) (by decide)).2 (by decide)).2.1

/-- Claim C1 fails on the code: when the 100-pop drain budget is exhausted
entirely on stale envelopes, the while loop of pop_queue falls through with
n = 0 and still returns the hundredth (stale) envelope, and update then
executes its payload — it is neither discarded nor kept from execution. -/
theorem C1_stale_budget_dispatched :
    (pop_queue 200 q100).result = some (⟨0, 0, QTime.fin 1⟩, Payload.op 99)
  ∧ isFresh 200 ⟨0, 0, QTime.fin 1⟩ = false
  ∧ (update 200 ⟨q100, [], 0⟩).immediate = some (Payload.op 99) := by
  refine ⟨by decide, by decide, by decide⟩

/-- Claim C5 as stated is false at the all-stale queue: the number logged is
100 although only 99 entries are actually dropped, the hundredth being
returned for dispatch. -/
theorem C5_drain_counterexample :
    (pop_queue 200 q100).logged = some 100
  ∧ (pop_queue 200 q100).dropped.length = 99
  ∧ (pop_queue 200 q100).logged ≠ some (pop_queue 200 q100).dropped.length := by
  refine ⟨by decide, by decide, by decide⟩

/-- Claim C5 (amended): per tick the drain pops at most 100 envelopes and
stops as soon as a non-stale envelope is found, the queue is empty, or the
budget is exhausted; every envelope popped and not returned is stale; a
count is logged exactly when the budget is exhausted entirely on stale
entries, and the logged number is then 100 — the number of stale pops, one
more than the 99 entries actually discarded, because the hundredth stale
envelope is returned for dispatch instead of being dropped. -/
theorem C5_drain_bounded_amended (now : ℤ) (q : List Env) :
    q = (pop_queue now q).dropped ++ (pop_queue now q).result.toList
          ++ (pop_queue now q).rest
  ∧ (pop_queue now q).dropped.length
      + (pop_queue now q).result.toList.length ≤ 100
  ∧ (∀ e ∈ (pop_queue now q).dropped, isFresh now e.1 = false)
  ∧ (∀ e2, (pop_queue now q).result = some e2 →
        isFresh now e2.1 = true ∨ (pop_queue now q).dropped.length = 99)
  ∧ ((pop_queue now q).result = none → (pop_queue now q).rest = [])
  ∧ ((pop_queue now q).logged ≠ none ↔
      ((pop_queue now q).dropped.length = 99
        ∧ ∃ e2, (pop_queue now q).result = some e2
            ∧ isFresh now e2.1 = false))
  ∧ ((pop_queue now q).logged ≠ none → (pop_queue now q).logged = some 100) := by
  have h1 := popGo_decomp now 100 q (by omega)
  have h2 := popGo_count now 100 q
  have h3 := popGo_dropped_stale now 100 q
  have h4 := popGo_result_fresh_or_exhausted now 100
  have h5 := popGo_none_rest now 100 q
  have h6 := popGo_logged now 100 q
  simp only [pop_queue]
  refine ⟨h1, h2, h3, ?_, h5, ?_, ?_⟩
  · intro e2 he
    rcases h4 q e2 he with h | h
    · exact Or.inl h
    · exact Or.inr (by omega)
  · rw [h6.2]
    constructor
    · rintro ⟨hl, he⟩
      exact ⟨by omega, he⟩
    · rintro ⟨hl, he⟩
      exact ⟨by omega, he⟩
  · intro hne
    rcases h6.1 with h | h
    · exact h
    · exact absurd h hne

/-- Witness for C5 (amended): the logging clause evaluated at the all-stale
queue. -/
theorem C5_drain_bounded_amended_witness :
    (pop_queue 200 q100).logged = some 100 :=
  (C5_drain_bounded_amended 200 q100).2.2.2.2.2.2 (by decide)

/-- Claim C4: a schedule_fn call (and RPCCanvas.schedule, which forwards to
it) waits at most the envelope's own max_queue_time: with a finite bound the
call never stays blocked; when the queue is full and no room appears within
that deadline the envelope is dropped and only a warning is logged; and
every outcome is an ordinary return value — enqueued, dropped-with-warning,
or still blocked on an infinite deadline — never an exception to the
producer. -/
theorem C4_enqueue_best_effort (cap : Nat) (q : List Env) (fn : Payload)
    (ti : TimeInfo) (now : ℤ) (roomAfter : QTime) :
    RPCCanvas.schedule cap q fn (some ti) now roomAfter
      = schedule_fn cap q fn (some ti) now roomAfter
  ∧ (ti.max_queue_time ≠ QTime.inf →
      schedule_fn cap q fn (some ti) now roomAfter ≠ ScheduleOutcome.blocked)
  ∧ (cap ≤ q.length → QTime.le roomAfter ti.max_queue_time = false →
      schedule_fn cap q fn (some ti) now roomAfter
        = ScheduleOutcome.droppedWarned q)
  ∧ (schedule_fn cap q fn (some ti) now roomAfter
        = ScheduleOutcome.enqueued (q ++ [(ti, fn)])
     ∨ schedule_fn cap q fn (some ti) now roomAfter
        = ScheduleOutcome.droppedWarned q
     ∨ schedule_fn cap q fn (some ti) now roomAfter
        = ScheduleOutcome.blocked) := by
  have hsched : RPCCanvas.schedule cap q fn (some ti) now roomAfter
      = schedule_fn cap q fn (some ti) now roomAfter := rfl
  by_cases hlen : q.length < cap
  · have hput : schedule_fn cap q fn (some ti) now roomAfter
        = ScheduleOutcome.enqueued (q ++ [(ti, fn)]) := by
      simp [schedule_fn, put, hlen]
    refine ⟨hsched, ?_, ?_, Or.inl hput⟩
    · intro _
      simp [hput]
    · intro hc _
      omega
  · by_cases hle : QTime.le roomAfter ti.max_queue_time = true
    · by_cases hinf : roomAfter = QTime.inf
      · have hmqt : ti.max_queue_time = QTime.inf := by
          subst hinf
          cases hmq : ti.max_queue_time with
          | inf => rfl
          | fin x =>
            rw [hmq] at hle
            simp [QTime.le] at hle
        have hput : schedule_fn cap q fn (some ti) now roomAfter
            = ScheduleOutcome.blocked := by
          simp [schedule_fn, put, hlen, hinf, hmqt, QTime.le]
        refine ⟨hsched, ?_, ?_, Or.inr (Or.inr hput)⟩
        · intro hne
          exact absurd hmqt hne
        · intro _ hf
          rw [hle] at hf
          cases hf
      · have hput : schedule_fn cap q fn (some ti) now roomAfter
            = ScheduleOutcome.enqueued (q ++ [(ti, fn)]) := by
          simp [schedule_fn, put, hlen, hle, hinf]
        refine ⟨hsched, ?_, ?_, Or.inl hput⟩
        · intro _
          simp [hput]
        · intro _ hf
          rw [hle] at hf
          cases hf
    · have hle2 : QTime.le roomAfter ti.max_queue_time = false := by
        cases h2 : QTime.le roomAfter ti.max_queue_time
        · rfl
        · exact absurd h2 hle
      have hput : schedule_fn cap q fn (some ti) now roomAfter
          = ScheduleOutcome.droppedWarned q := by
        simp [schedule_fn, put, hlen, hle2]
      refine ⟨hsched, ?_, fun _ _ => hput, Or.inr (Or.inl hput)⟩
      intro _
      simp [hput]

/-- Witness for C4: a full queue of capacity 1 whose consumer never frees a
slot: the finite-deadline enqueue is dropped with a warning, not an error. -/
theorem C4_enqueue_best_effort_witness :
    schedule_fn 1 [(⟨0, 0, QTime.fin 1⟩, Payload.op 0)] (Payload.op 1)
        (some ⟨5, 5, QTime.fin 1⟩) 5 QTime.inf
      = ScheduleOutcome.droppedWarned [(⟨0, 0, QTime.fin 1⟩, Payload.op 0)] :=
  (C4_enqueue_best_effort 1 [(⟨0, 0, QTime.fin 1⟩, Payload.op 0)]
      (Payload.op 1) ⟨5, 5, QTime.fin 1⟩ 5 QTime.inf).2.2.1
    (by decide) (by decide)

/-- Claim C6: close() schedules a terminate envelope whose TimeInfo has an
infinite max_queue_time; enqueuing it is never a backpressure drop (the
outcome is acceptance, or continued blocking when room never appears — never
a timeout drop), the envelope is never stale at any dequeue time, and its
payload exits the worker's run loop. -/
theorem C6_close_terminate (now t : ℤ) (cap : Nat) (q : List Env)
    (roomAfter : QTime) (r : Bool) :
    (RPCCanvas.closeEnv now).1.max_queue_time = QTime.inf
  ∧ ((∃ q2, RPCCanvas.close cap q now roomAfter = ScheduleOutcome.enqueued q2)
      ∨ RPCCanvas.close cap q now roomAfter = ScheduleOutcome.blocked)
  ∧ isFresh t (RPCCanvas.closeEnv now).1 = true
  ∧ execPayload (RPCCanvas.closeEnv now).2 r = false := by
  refine ⟨rfl, ?_, rfl, rfl⟩
  by_cases hlen : q.length < cap
  · left
    exact ⟨q ++ [(TimeInfo.make now none none QTime.inf none, Payload.quit)],
      by simp [RPCCanvas.close, RPCCanvas.schedule, schedule_fn, put,
        RPCCanvas.closeEnv, TimeInfo.make, hlen]⟩
  · by_cases hinf : roomAfter = QTime.inf
    · right
      simp [RPCCanvas.close, RPCCanvas.schedule, schedule_fn, put,
        RPCCanvas.closeEnv, TimeInfo.make, hlen, hinf, QTime.le]
    · left
      refine ⟨q ++ [(TimeInfo.make now none none QTime.inf none, Payload.quit)], ?_⟩
      cases roomAfter with
      | inf => exact absurd rfl hinf
      | fin x =>
        simp [RPCCanvas.close, RPCCanvas.schedule, schedule_fn, put,
          RPCCanvas.closeEnv, TimeInfo.make, hlen, QTime.le]

/-- Claim C7 fails on the code: the done property evaluates len() on a
multiprocessing queue, which defines no length, so it raises TypeError for
every queue state instead of returning a boolean emptiness observation. -/
theorem C7_done_raises (q : List Env) :
    done q = Except.error PyError.typeError :=
  rfl

/-- Claim C8: entering switch_canvas(h) installs h, so current_canvas
returns h inside the scope, and the finally block restores the exact prior
slot value on every exit path, normal or exceptional. -/
theorem C8_switch_canvas_scope (prior : Option Nat) (h fresh f2 : Nat)
    (exc : Bool) :
    switch_canvas.enter prior (some h) fresh = (some h, h, prior)
  ∧ current_canvas (switch_canvas.enter prior (some h) fresh).1 f2 = (some h, h)
  ∧ switch_canvas.exit exc (switch_canvas.enter prior (some h) fresh).2.2
      = prior :=
  ⟨rfl, rfl, rfl⟩

theorem ctxGet_append_self (c : Ctx) (k : String) (v : Nat)
    (h : ctxGet c k = none) : ctxGet (c ++ [(k, v)]) k = some v := by
  induction c with
  | nil => simp [ctxGet]
  | cons p rest ih =>
    rcases p with ⟨k2, w⟩
    by_cases hk : k2 = k
    · subst hk
      simp [ctxGet] at h
    · simp [ctxGet, hk] at h ⊢
      exact ih h

/-- Claim C9: for a non-None key, ensure_get returns the stored handle and
leaves the mapping unchanged when the key is present (the factory is not
called); when the key is absent it calls the factory once, stores the
result under the key, returns it, and a second ensure_get with the same key
then returns that same handle without calling its own factory. -/
theorem C9_ensure_get_memo (c : Ctx) (k : String) (f g : Unit → Nat) :
    (∀ v, ctxGet c k = some v →
        Context.ensure_get c (some k) f = (v, c, false))
  ∧ (ctxGet c k = none →
        Context.ensure_get c (some k) f = (f (), setItem c k (f ()), true)
      ∧ Context.ensure_get (setItem c k (f ())) (some k) g
          = (f (), setItem c k (f ()), false)) := by
  constructor
  · intro v hv
    simp [Context.ensure_get, hv]
  · intro hn
    have hset : setItem c k (f ()) = c ++ [(k, f ())] := by
      simp [setItem, hn]
    have hget : ctxGet (setItem c k (f ())) k = some (f ()) := by
      rw [hset]
      exact ctxGet_append_self c k _ hn
    constructor
    · simp [Context.ensure_get, hn]
    · simp [Context.ensure_get, hget]

/-- Witness for C9: an absent key is created and stored, and the second call
with the same key returns the stored handle without invoking its factory. -/
theorem C9_ensure_get_memo_witness :
    Context.ensure_get [] (some "a") (fun _ => 7) = (7, [("a", 7)], true)
  ∧ Context.ensure_get [("a", 7)] (some "a") (fun _ => 9)
      = (7, [("a", 7)], false) := by
  have h2 := (C9_ensure_get_memo [] "a" (fun _ => 7) (fun _ => 9)).2 (by decide)
  exact ⟨h2.1, h2.2⟩

/-- Claim C10: find_node returns the root for a None name; for any non-None
name it returns None, because the breadth-first work list is initialised
empty (the root is never pushed), so the search loop exits at once and no
node is ever examined. -/
theorem C10_find_node_unreachable (root : SNode) (nm : String) :
    find_node root none = some root
  ∧ find_node root (some nm) = none
  ∧ (∀ fuel, findLoop nm fuel [] = none) := by
  refine ⟨rfl, rfl, ?_⟩
  intro fuel
  cases fuel with
  | zero => rfl
  | succ m => rfl

end RpcVispy
